import Mathlib

/- Verification of the RTCP Source Description (SDES) codec
   (src/rtcp/source_description.rs): data model, encoder, decoder and the
   length/padding computations, embedded shallowly.  The octets cursor and
   the rtcp error type are collaborators that are not part of src/; they
   are modelled from the spec (sections 6 and 7). -/

/-- Modelled from the spec: the rtcp module's error type (the rtcp module
root is not included under src/).  Section 7 gives the taxonomy: a buffer
bounds-violation failure and a defensive invalid-padding-size failure. -/
inductive RtcpError where
  | BufferTooShort
  | InvalidPaddingSize
deriving DecidableEq

/-- Modelled from the spec: the octets read/write cursor (the octets module
is not included under src/).  Section 6: a byte buffer with an absolute
offset, offering bounds-checked big-endian fixed-width reads and writes and
raw byte-slice reads and writes, each advancing the offset.  Bytes are Nat;
writes store values reduced mod 256 as the u8-typed interface does. -/
structure Octets where
  buf : List Nat
  off : Nat
deriving DecidableEq

/-- Overwrite the bytes of buf at positions off, off+1, ... with d. -/
def splice (buf : List Nat) (off : Nat) (d : List Nat) : List Nat :=
  buf.take off ++ d ++ buf.drop (off + d.length)

/-- Modelled from the spec: bounds-checked raw write at the cursor,
advancing the offset; fails with the bounds-violation error when the
write would exceed the buffer's capacity. -/
def Octets.writeBytes (b : Octets) (d : List Nat) : Except RtcpError Octets :=
  if b.off + d.length ≤ b.buf.length then
    .ok ⟨splice b.buf b.off d, b.off + d.length⟩
  else
    .error .BufferTooShort

/-- Modelled from the spec: write one byte. -/
def Octets.put_u8 (b : Octets) (v : Nat) : Except RtcpError Octets :=
  b.writeBytes [v % 256]

/-- Modelled from the spec: write a 16-bit value, big-endian. -/
def Octets.put_u16 (b : Octets) (v : Nat) : Except RtcpError Octets :=
  b.writeBytes [v / 256 % 256, v % 256]

/-- Modelled from the spec: write a 24-bit value, big-endian. -/
def Octets.put_u24 (b : Octets) (v : Nat) : Except RtcpError Octets :=
  b.writeBytes [v / 65536 % 256, v / 256 % 256, v % 256]

/-- Modelled from the spec: write a 32-bit value, big-endian. -/
def Octets.put_u32 (b : Octets) (v : Nat) : Except RtcpError Octets :=
  b.writeBytes [v / 16777216 % 256, v / 65536 % 256, v / 256 % 256, v % 256]

/-- Modelled from the spec: write a raw byte slice verbatim (the source
passes a byte vector, whose elements are already bytes). -/
def Octets.put_bytes (b : Octets) (d : List Nat) : Except RtcpError Octets :=
  b.writeBytes d

/-- Modelled from the spec: bounds-checked read of one byte, advancing the
offset. -/
def Octets.get_u8 (b : Octets) : Except RtcpError (Nat × Octets) :=
  if b.off + 1 ≤ b.buf.length then
    .ok (b.buf.getD b.off 0, ⟨b.buf, b.off + 1⟩)
  else
    .error .BufferTooShort

/-- Modelled from the spec: bounds-checked big-endian read of a 32-bit
value, advancing the offset by 4. -/
def Octets.get_u32 (b : Octets) : Except RtcpError (Nat × Octets) :=
  if b.off + 4 ≤ b.buf.length then
    .ok (b.buf.getD b.off 0 * 16777216 + b.buf.getD (b.off + 1) 0 * 65536 +
         b.buf.getD (b.off + 2) 0 * 256 + b.buf.getD (b.off + 3) 0,
         ⟨b.buf, b.off + 4⟩)
  else
    .error .BufferTooShort

/-- Modelled from the spec: bounds-checked read of a raw byte slice of the
given length, advancing the offset. -/
def Octets.get_bytes (b : Octets) (n : Nat) : Except RtcpError (List Nat × Octets) :=
  if b.off + n ≤ b.buf.length then
    .ok ((b.buf.drop b.off).take n, ⟨b.buf, b.off + n⟩)
  else
    .error .BufferTooShort

/-- Number of zero bytes (0-3) needed to round len up to a multiple of 4
(get_padding in the source). -/
def get_padding (len : Nat) : Nat :=
  if len % 4 = 0 then 0 else 4 - len % 4

/-- One SDES item: a type tag and an opaque byte blob
(RtcpSourceDescriptionItem in the source). -/
structure RtcpSourceDescriptionItem where
  item_type : Nat
  data : List Nat
deriving DecidableEq

/-- One SDES chunk: an ssrc and its items
(RtcpSourceDescriptionChunk in the source). -/
structure RtcpSourceDescriptionChunk where
  ssrc : Nat
  items : List RtcpSourceDescriptionItem
deriving DecidableEq

/-- Total encoded size of a chunk in bytes, as the source computes it:
4 (ssrc) plus a fold of 2 + data length over the items, plus 1
(terminator), plus the padding for that sum; the source returns the usize
sum cast to u32, hence the final reduction mod 2^32. -/
def RtcpSourceDescriptionChunk.get_length (c : RtcpSourceDescriptionChunk) : Nat :=
  let b1 := 4 + c.items.foldl (fun sum a => sum + 2 + a.data.length) 0
  let b2 := b1 + 1
  (b2 + get_padding b2) % 4294967296

/-- The item-writing loop of RtcpSourceDescriptionChunk::to_bytes: for each
item write its type tag, its data length cast to u8, then its data. -/
def putItems (items : List RtcpSourceDescriptionItem) (out : Octets) :
    Except RtcpError Octets :=
  match items with
  | [] => .ok out
  | item :: rest =>
    match out.put_u8 item.item_type with
    | .error e => .error e
    | .ok o1 =>
      match o1.put_u8 (item.data.length % 256) with
      | .error e => .error e
      | .ok o2 =>
        match o2.put_bytes item.data with
        | .error e => .error e
        | .ok o3 => putItems rest o3

/-- RtcpSourceDescriptionChunk::to_bytes: ssrc (u32, big-endian), the
items, the zero terminator byte, then padding chosen by the cursor's
current absolute offset, with a defensive error on any other padding
value. -/
def RtcpSourceDescriptionChunk.to_bytes (c : RtcpSourceDescriptionChunk)
    (out : Octets) : Except RtcpError Octets :=
  match out.put_u32 c.ssrc with
  | .error e => .error e
  | .ok o1 =>
    match putItems c.items o1 with
    | .error e => .error e
    | .ok o2 =>
      match o2.put_u8 0 with
      | .error e => .error e
      | .ok o3 =>
        match get_padding o3.off with
        | 0 => .ok o3
        | 1 => o3.put_u8 0
        | 2 => o3.put_u16 0
        | 3 => o3.put_u24 0
        | _ => .error .InvalidPaddingSize

lemma Octets.get_u8_ok {b : Octets} {v : Nat} {b2 : Octets}
    (h : b.get_u8 = .ok (v, b2)) :
    b2.buf = b.buf ∧ b2.off = b.off + 1 ∧ b.off < b.buf.length ∧
      v = b.buf.getD b.off 0 := by
  unfold Octets.get_u8 at h
  split at h
  · cases h
    exact ⟨rfl, rfl, by omega, rfl⟩
  · cases h

lemma Octets.get_bytes_ok {b : Octets} {n : Nat} {d : List Nat} {b2 : Octets}
    (h : b.get_bytes n = .ok (d, b2)) :
    b2.buf = b.buf ∧ b2.off = b.off + n ∧ b.off + n ≤ b.buf.length ∧
      d = (b.buf.drop b.off).take n := by
  unfold Octets.get_bytes at h
  split at h
  · cases h
    exact ⟨rfl, rfl, by omega, rfl⟩
  · cases h

/-- The item-reading loop of RtcpSourceDescriptionChunk::from_bytes: read a
type tag; a zero tag is the terminator, after which padding computed from
the current absolute offset is skipped; a nonzero tag is followed by a
1-byte length and that many data bytes, and the loop continues. -/
def parseItems (bytes : Octets) :
    Except RtcpError (List RtcpSourceDescriptionItem × Octets) :=
  match h1 : bytes.get_u8 with
  | .error e => .error e
  | .ok (item_type, b1) =>
    if item_type = 0 then
      let padding := get_padding b1.off
      if padding > 0 then
        match b1.get_bytes padding with
        | .error e => .error e
        | .ok (_, b2) => .ok ([], b2)
      else
        .ok ([], b1)
    else
      match h2 : b1.get_u8 with
      | .error e => .error e
      | .ok (length, b2) =>
        match h3 : b2.get_bytes length with
        | .error e => .error e
        | .ok (data, b3) =>
          match parseItems b3 with
          | .error e => .error e
          | .ok (rest, b4) => .ok (⟨item_type, data⟩ :: rest, b4)
termination_by bytes.buf.length - bytes.off
decreasing_by
  obtain ⟨e1, e2, e3, -⟩ := Octets.get_u8_ok h1
  obtain ⟨f1, f2, f3, -⟩ := Octets.get_u8_ok h2
  obtain ⟨g1, g2, g3, -⟩ := Octets.get_bytes_ok h3
  rw [g1, f1, e1] at *
  omega

/-- RtcpSourceDescriptionChunk::from_bytes: read the ssrc, then the items
up to and including the terminator and padding. -/
def RtcpSourceDescriptionChunk.from_bytes (bytes : Octets) :
    Except RtcpError (RtcpSourceDescriptionChunk × Octets) :=
  match bytes.get_u32 with
  | .error e => .error e
  | .ok (ssrc, b) =>
    match parseItems b with
    | .error e => .error e
    | .ok (items, b2) => .ok (⟨ssrc, items⟩, b2)

/-- An SDES packet: an ordered sequence of chunks
(RtcpSourceDescriptionPacket in the source). -/
structure RtcpSourceDescriptionPacket where
  chunks : List RtcpSourceDescriptionChunk
deriving DecidableEq

/-- Sum of the chunk lengths, in u32 arithmetic. -/
def RtcpSourceDescriptionPacket.get_length (p : RtcpSourceDescriptionPacket) : Nat :=
  p.chunks.foldl (fun sum a => (sum + a.get_length) % 4294967296) 0

/-- Number of chunks cast to u8 (the source writes chunks.len() as u8). -/
def RtcpSourceDescriptionPacket.get_chunks_length (p : RtcpSourceDescriptionPacket) : Nat :=
  p.chunks.length % 256

/-- The chunk-writing loop of RtcpSourceDescriptionPacket::to_bytes. -/
def putChunks (chunks : List RtcpSourceDescriptionChunk) (out : Octets) :
    Except RtcpError Octets :=
  match chunks with
  | [] => .ok out
  | c :: rest =>
    match c.to_bytes out with
    | .error e => .error e
    | .ok o2 => putChunks rest o2

/-- RtcpSourceDescriptionPacket::to_bytes: encode each chunk in order
against the shared cursor. -/
def RtcpSourceDescriptionPacket.to_bytes (p : RtcpSourceDescriptionPacket)
    (out : Octets) : Except RtcpError Octets :=
  putChunks p.chunks out

/-- The chunk-reading loop of RtcpSourceDescriptionPacket::from_bytes:
decode exactly count chunks sequentially, collecting them in order. -/
def chunksFromBytes : Nat → Octets → Except RtcpError (List RtcpSourceDescriptionChunk × Octets)
  | 0, b => .ok ([], b)
  | n + 1, b =>
    match RtcpSourceDescriptionChunk.from_bytes b with
    | .error e => .error e
    | .ok (c, b2) =>
      match chunksFromBytes n b2 with
      | .error e => .error e
      | .ok (cs, b3) => .ok (c :: cs, b3)

/-- RtcpSourceDescriptionPacket::from_bytes: decode count chunks and wrap
them in a packet. -/
def RtcpSourceDescriptionPacket.from_bytes (bytes : Octets) (count : Nat) :
    Except RtcpError (RtcpSourceDescriptionPacket × Octets) :=
  match chunksFromBytes count bytes with
  | .error e => .error e
  | .ok (chunks, b2) => .ok (⟨chunks⟩, b2)

/-- The four big-endian bytes of a 32-bit value. -/
def u32Bytes (v : Nat) : List Nat :=
  [v / 16777216 % 256, v / 65536 % 256, v / 256 % 256, v % 256]

/-- The wire bytes of one item: type tag, length (cast to u8), data. -/
def itemBytes (i : RtcpSourceDescriptionItem) : List Nat :=
  i.item_type % 256 :: i.data.length % 256 :: i.data

/-- The wire bytes of an item list, in order. -/
def itemsBytes : List RtcpSourceDescriptionItem → List Nat
  | [] => []
  | i :: rest => itemBytes i ++ itemsBytes rest

/-- Encoded size of a chunk before padding: ssrc, items, terminator. -/
def chunkUnpadded (c : RtcpSourceDescriptionChunk) : Nat :=
  4 + (itemsBytes c.items).length + 1

/-- The wire bytes of a chunk encoded with the cursor at absolute offset o:
ssrc, items, terminator, and padding computed from the absolute offset
reached after the terminator. -/
def chunkBytes (c : RtcpSourceDescriptionChunk) (o : Nat) : List Nat :=
  u32Bytes c.ssrc ++ itemsBytes c.items ++ [0] ++
    List.replicate (get_padding (o + chunkUnpadded c)) 0

/-- The wire bytes of a chunk list encoded starting at absolute offset o. -/
def packetBytes : List RtcpSourceDescriptionChunk → Nat → List Nat
  | [], _ => []
  | c :: rest, o => chunkBytes c o ++ packetBytes rest (o + (chunkBytes c o).length)

lemma splice_nil (buf : List Nat) (off : Nat) : splice buf off [] = buf := by
  simp [splice]

lemma splice_cons (x : Nat) (buf : List Nat) (off : Nat) (d : List Nat) :
    splice (x :: buf) (off + 1) d = x :: splice buf off d := by
  simp [splice, List.take_succ_cons, Nat.add_right_comm off 1 d.length,
    List.drop_succ_cons]

lemma splice_length {buf : List Nat} {off : Nat} {d : List Nat}
    (h : off + d.length ≤ buf.length) : (splice buf off d).length = buf.length := by
  simp [splice]
  omega

lemma splice_zero (buf : List Nat) (d : List Nat) :
    splice buf 0 d = d ++ buf.drop d.length := by
  simp [splice]

lemma splice_append_left (d1 Y d2 : List Nat) :
    splice (d1 ++ Y) d1.length d2 = d1 ++ d2 ++ Y.drop d2.length := by
  simp [splice, List.take_left, List.drop_append]

lemma splice_splice {d1 d2 : List Nat} : ∀ (buf : List Nat) {off : Nat},
    off ≤ buf.length →
    splice (splice buf off d1) (off + d1.length) d2 = splice buf off (d1 ++ d2) := by
  intro buf
  induction buf with
  | nil =>
    intro off h
    have h0 : off = 0 := by simpa using h
    subst h0
    rw [splice_zero, List.drop_nil, List.append_nil, Nat.zero_add]
    have hd : splice d1 d1.length d2 = d1 ++ d2 := by
      have := splice_append_left d1 [] d2
      simpa using this
    rw [hd, splice_zero, List.drop_nil, List.append_nil]
  | cons x rest ih =>
    intro off h
    match off with
    | 0 =>
      rw [splice_zero, Nat.zero_add, splice_append_left, splice_zero,
        List.drop_drop]
      simp
    | off + 1 =>
      rw [splice_cons, Nat.add_right_comm, splice_cons, splice_cons,
        ih (by simpa using h)]

lemma writeBytes_ok {b : Octets} {d : List Nat} {out : Octets}
    (h : b.writeBytes d = .ok out) :
    b.off + d.length ≤ b.buf.length ∧ out.buf = splice b.buf b.off d ∧
      out.off = b.off + d.length ∧ out.buf.length = b.buf.length := by
  unfold Octets.writeBytes at h
  split at h
  · cases h
    exact ⟨by omega, rfl, rfl, splice_length (by omega)⟩
  · cases h

lemma writeBytes_error {b : Octets} {d : List Nat} {e : RtcpError}
    (h : b.writeBytes d = .error e) : e = .BufferTooShort := by
  unfold Octets.writeBytes at h
  split at h
  · cases h
  · cases h
    rfl

lemma writeBytes_nil {b : Octets} (h : b.off ≤ b.buf.length) :
    b.writeBytes [] = .ok b := by
  unfold Octets.writeBytes
  simp [h, splice_nil]

lemma writeBytes_seq {b b1 out : Octets} {d1 d2 : List Nat}
    (h1 : b.writeBytes d1 = .ok b1) (h2 : b1.writeBytes d2 = .ok out) :
    b.writeBytes (d1 ++ d2) = .ok out := by
  obtain ⟨hb1, he1, ho1, hl1⟩ := writeBytes_ok h1
  obtain ⟨hb2, he2, ho2, hl2⟩ := writeBytes_ok h2
  unfold Octets.writeBytes
  rw [if_pos (by simp; omega)]
  have hs : splice b.buf b.off (d1 ++ d2) = out.buf := by
    rw [he2, he1, ho1, splice_splice b.buf (by omega)]
  have : out = ⟨splice b.buf b.off (d1 ++ d2), b.off + (d1 ++ d2).length⟩ := by
    cases out
    simp_all
    omega
  rw [← this]

lemma get_padding_lt (n : Nat) : get_padding n < 4 := by
  unfold get_padding
  split <;> omega

lemma get_padding_add_mul_four {a n : Nat} (h : a % 4 = 0) :
    get_padding (a + n) = get_padding n := by
  unfold get_padding
  have : (a + n) % 4 = n % 4 := by omega
  rw [this]

lemma get_padding_aligns (n : Nat) : (n + get_padding n) % 4 = 0 := by
  unfold get_padding
  split <;> omega

lemma putItems_ok : ∀ (items : List RtcpSourceDescriptionItem) (b out : Octets),
    b.off ≤ b.buf.length → putItems items b = .ok out →
    b.writeBytes (itemsBytes items) = .ok out
  | [], b, out, hb, h => by
    simp only [putItems] at h
    cases h
    exact writeBytes_nil hb
  | item :: rest, b, out, hb, h => by
    rw [putItems] at h
    cases hu1 : b.put_u8 item.item_type with
    | error e => simp [hu1] at h
    | ok o1 =>
      simp only [hu1] at h
      cases hu2 : o1.put_u8 (item.data.length % 256) with
      | error e => simp [hu2] at h
      | ok o2 =>
        simp only [hu2] at h
        cases hu3 : o2.put_bytes item.data with
        | error e => simp [hu3] at h
        | ok o3 =>
          simp only [hu3] at h
          have w1 : b.writeBytes [item.item_type % 256] = .ok o1 := hu1
          have w2 : o1.writeBytes [item.data.length % 256 % 256] = .ok o2 := hu2
          have w3 : o2.writeBytes item.data = .ok o3 := hu3
          have hrec := putItems_ok rest o3 out (by
            obtain ⟨-, -, -, h3l⟩ := writeBytes_ok w3
            obtain ⟨h3b, -, h3o, -⟩ := writeBytes_ok w3
            omega) h
          have := writeBytes_seq w1 (writeBytes_seq w2 (writeBytes_seq w3 hrec))
          simpa [itemsBytes, itemBytes] using this

lemma to_bytes_ok {c : RtcpSourceDescriptionChunk} {b out : Octets}
    (h : c.to_bytes b = .ok out) :
    b.writeBytes (chunkBytes c b.off) = .ok out := by
  rw [RtcpSourceDescriptionChunk.to_bytes] at h
  cases hu1 : b.put_u32 c.ssrc with
  | error e => simp [hu1] at h
  | ok o1 =>
    simp only [hu1] at h
    cases hu2 : putItems c.items o1 with
    | error e => simp [hu2] at h
    | ok o2 =>
      simp only [hu2] at h
      cases hu3 : o2.put_u8 0 with
      | error e => simp [hu3] at h
      | ok o3 =>
        simp only [hu3] at h
        have w1 : b.writeBytes (u32Bytes c.ssrc) = .ok o1 := hu1
        obtain ⟨h1b, h1s, h1o, h1l⟩ := writeBytes_ok w1
        have w2 : o1.writeBytes (itemsBytes c.items) = .ok o2 :=
          putItems_ok c.items o1 o2 (by omega) hu2
        obtain ⟨h2b, h2s, h2o, h2l⟩ := writeBytes_ok w2
        have w3 : o2.writeBytes [0] = .ok o3 := by
          simpa [Octets.put_u8] using hu3
        obtain ⟨h3b, h3s, h3o, h3l⟩ := writeBytes_ok w3
        have hoff : o3.off = b.off + chunkUnpadded c := by
          have l1 : (u32Bytes c.ssrc).length = 4 := rfl
          have l3 : ([0] : List Nat).length = 1 := rfl
          rw [chunkUnpadded]
          omega
        have hpad : ∀ w4 : o3.writeBytes
            (List.replicate (get_padding (b.off + chunkUnpadded c)) 0) = .ok out,
            b.writeBytes (chunkBytes c b.off) = .ok out := by
          intro w4
          have := writeBytes_seq w1 (writeBytes_seq w2 (writeBytes_seq w3 w4))
          simpa [chunkBytes, List.append_assoc] using this
        rw [← hoff] at hpad
        rcases hlt : get_padding o3.off with _ | _ | _ | _ | n
        · simp only [hlt] at h
          cases h
          exact hpad (by simpa [hlt] using writeBytes_nil (by omega))
        · simp only [hlt] at h
          exact hpad (by simpa [hlt, Octets.put_u8, List.replicate] using h)
        · simp only [hlt] at h
          exact hpad (by simpa [hlt, Octets.put_u16, List.replicate] using h)
        · simp only [hlt] at h
          exact hpad (by simpa [hlt, Octets.put_u24, List.replicate] using h)
        · have := get_padding_lt o3.off
          omega

lemma putChunks_ok : ∀ (chunks : List RtcpSourceDescriptionChunk) (b out : Octets),
    b.off ≤ b.buf.length → putChunks chunks b = .ok out →
    b.writeBytes (packetBytes chunks b.off) = .ok out
  | [], b, out, hb, h => by
    simp only [putChunks] at h
    cases h
    exact writeBytes_nil hb
  | c :: rest, b, out, hb, h => by
    rw [putChunks] at h
    cases hu1 : c.to_bytes b with
    | error e => simp [hu1] at h
    | ok o1 =>
      simp only [hu1] at h
      have w1 := to_bytes_ok hu1
      obtain ⟨h1b, h1s, h1o, h1l⟩ := writeBytes_ok w1
      have hrec := putChunks_ok rest o1 out (by omega) h
      rw [h1o] at hrec
      have := writeBytes_seq w1 hrec
      simpa [packetBytes] using this

lemma get_u8_eval {b : Octets} (h : b.off < b.buf.length) :
    b.get_u8 = .ok (b.buf.getD b.off 0, ⟨b.buf, b.off + 1⟩) := by
  unfold Octets.get_u8
  rw [if_pos (by omega)]

lemma get_u32_eval {b : Octets} (h : b.off + 4 ≤ b.buf.length) :
    b.get_u32 = .ok (b.buf.getD b.off 0 * 16777216 +
      b.buf.getD (b.off + 1) 0 * 65536 + b.buf.getD (b.off + 2) 0 * 256 +
      b.buf.getD (b.off + 3) 0, ⟨b.buf, b.off + 4⟩) := by
  unfold Octets.get_u32
  rw [if_pos h]

lemma get_bytes_eval {b : Octets} {n : Nat} (h : b.off + n ≤ b.buf.length) :
    b.get_bytes n = .ok ((b.buf.drop b.off).take n, ⟨b.buf, b.off + n⟩) := by
  unfold Octets.get_bytes
  rw [if_pos h]

lemma drop_take_eq_of_getD : ∀ (data buf : List Nat) (off : Nat),
    off + data.length ≤ buf.length →
    (∀ k, k < data.length → buf.getD (off + k) 0 = data.getD k 0) →
    (buf.drop off).take data.length = data := by
  intro data buf off hb hk
  apply List.ext_getElem
  · simp
    omega
  · intro i h1 h2
    have hi : i < data.length := h2
    have := hk i hi
    rw [List.getD_eq_getElem _ _ (by omega), List.getD_eq_getElem _ _ hi] at this
    simpa using this

lemma itemsBytes_cons_length (i : RtcpSourceDescriptionItem)
    (rest : List RtcpSourceDescriptionItem) :
    (itemsBytes (i :: rest)).length = 2 + i.data.length + (itemsBytes rest).length := by
  simp [itemsBytes, itemBytes]
  omega

lemma parseItems_u8_err {b : Octets} {e : RtcpError}
    (h : b.get_u8 = .error e) : parseItems b = .error e := by
  rw [parseItems]
  split
  · rename_i e2 heq
    rw [heq] at h
    cases h
    rfl
  · rename_i t b1 heq
    rw [heq] at h
    cases h

lemma parseItems_term_pad0 {b b1 : Octets}
    (h : b.get_u8 = .ok (0, b1)) (hp : get_padding b1.off = 0) :
    parseItems b = .ok ([], b1) := by
  rw [parseItems]
  split
  · rename_i e heq
    rw [heq] at h
    cases h
  · rename_i t b1h heq
    rw [heq] at h
    simp only [Except.ok.injEq, Prod.mk.injEq] at h
    obtain ⟨rfl, rfl⟩ := h
    rw [if_pos rfl, if_neg (by omega)]

lemma parseItems_term_pad_ok {b b1 b2 : Octets} {d : List Nat}
    (h : b.get_u8 = .ok (0, b1)) (hp : get_padding b1.off > 0)
    (h2 : b1.get_bytes (get_padding b1.off) = .ok (d, b2)) :
    parseItems b = .ok ([], b2) := by
  rw [parseItems]
  split
  · rename_i e heq
    rw [heq] at h
    cases h
  · rename_i t b1h heq
    rw [heq] at h
    simp only [Except.ok.injEq, Prod.mk.injEq] at h
    obtain ⟨rfl, rfl⟩ := h
    rw [if_pos rfl, if_pos hp]
    split
    · rename_i e heq2
      rw [heq2] at h2
      cases h2
    · rename_i d2 b2h heq2
      rw [heq2] at h2
      simp only [Except.ok.injEq, Prod.mk.injEq] at h2
      obtain ⟨rfl, rfl⟩ := h2
      rfl

lemma parseItems_term_pad_err {b b1 : Octets} {e : RtcpError}
    (h : b.get_u8 = .ok (0, b1)) (hp : get_padding b1.off > 0)
    (h2 : b1.get_bytes (get_padding b1.off) = .error e) :
    parseItems b = .error e := by
  rw [parseItems]
  split
  · rename_i e2 heq
    rw [heq] at h
    cases h
  · rename_i t b1h heq
    rw [heq] at h
    simp only [Except.ok.injEq, Prod.mk.injEq] at h
    obtain ⟨rfl, rfl⟩ := h
    rw [if_pos rfl, if_pos hp]
    split
    · rename_i e2 heq2
      rw [heq2] at h2
      cases h2
      rfl
    · rename_i d2 b2h heq2
      rw [heq2] at h2
      cases h2

lemma parseItems_len_err {b b1 : Octets} {t : Nat} {e : RtcpError}
    (h1 : b.get_u8 = .ok (t, b1)) (ht : t ≠ 0)
    (h2 : b1.get_u8 = .error e) :
    parseItems b = .error e := by
  rw [parseItems]
  split
  · rename_i e2 heq
    rw [heq] at h1
    cases h1
  · rename_i t2 b1h heq
    rw [heq] at h1
    simp only [Except.ok.injEq, Prod.mk.injEq] at h1
    obtain ⟨rfl, rfl⟩ := h1
    rw [if_neg ht]
    split
    · rename_i e2 heq2
      rw [heq2] at h2
      cases h2
      rfl
    · rename_i L b2h heq2
      rw [heq2] at h2
      cases h2

lemma parseItems_data_err {b b1 b2 : Octets} {t L : Nat} {e : RtcpError}
    (h1 : b.get_u8 = .ok (t, b1)) (ht : t ≠ 0)
    (h2 : b1.get_u8 = .ok (L, b2)) (h3 : b2.get_bytes L = .error e) :
    parseItems b = .error e := by
  rw [parseItems]
  split
  · rename_i e2 heq
    rw [heq] at h1
    cases h1
  · rename_i t2 b1h heq
    rw [heq] at h1
    simp only [Except.ok.injEq, Prod.mk.injEq] at h1
    obtain ⟨rfl, rfl⟩ := h1
    rw [if_neg ht]
    split
    · rename_i e2 heq2
      rw [heq2] at h2
      cases h2
    · rename_i L2 b2h heq2
      rw [heq2] at h2
      simp only [Except.ok.injEq, Prod.mk.injEq] at h2
      obtain ⟨rfl, rfl⟩ := h2
      split
      · rename_i e2 heq3
        rw [heq3] at h3
        cases h3
        rfl
      · rename_i d b3h heq3
        rw [heq3] at h3
        cases h3

lemma parseItems_rec_err {b b1 b2 b3 : Octets} {t L : Nat} {d : List Nat}
    {e : RtcpError}
    (h1 : b.get_u8 = .ok (t, b1)) (ht : t ≠ 0)
    (h2 : b1.get_u8 = .ok (L, b2)) (h3 : b2.get_bytes L = .ok (d, b3))
    (h4 : parseItems b3 = .error e) :
    parseItems b = .error e := by
  rw [parseItems]
  split
  · rename_i e2 heq
    rw [heq] at h1
    cases h1
  · rename_i t2 b1h heq
    rw [heq] at h1
    simp only [Except.ok.injEq, Prod.mk.injEq] at h1
    obtain ⟨rfl, rfl⟩ := h1
    rw [if_neg ht]
    split
    · rename_i e2 heq2
      rw [heq2] at h2
      cases h2
    · rename_i L2 b2h heq2
      rw [heq2] at h2
      simp only [Except.ok.injEq, Prod.mk.injEq] at h2
      obtain ⟨rfl, rfl⟩ := h2
      split
      · rename_i e2 heq3
        rw [heq3] at h3
        cases h3
      · rename_i d2 b3h heq3
        rw [heq3] at h3
        simp only [Except.ok.injEq, Prod.mk.injEq] at h3
        obtain ⟨rfl, rfl⟩ := h3
        simp only [h4]

lemma parseItems_cons_ok {b b1 b2 b3 b4 : Octets} {t L : Nat} {d : List Nat}
    {rest : List RtcpSourceDescriptionItem}
    (h1 : b.get_u8 = .ok (t, b1)) (ht : t ≠ 0)
    (h2 : b1.get_u8 = .ok (L, b2)) (h3 : b2.get_bytes L = .ok (d, b3))
    (h4 : parseItems b3 = .ok (rest, b4)) :
    parseItems b = .ok (⟨t, d⟩ :: rest, b4) := by
  rw [parseItems]
  split
  · rename_i e2 heq
    rw [heq] at h1
    cases h1
  · rename_i t2 b1h heq
    rw [heq] at h1
    simp only [Except.ok.injEq, Prod.mk.injEq] at h1
    obtain ⟨rfl, rfl⟩ := h1
    rw [if_neg ht]
    split
    · rename_i e2 heq2
      rw [heq2] at h2
      cases h2
    · rename_i L2 b2h heq2
      rw [heq2] at h2
      simp only [Except.ok.injEq, Prod.mk.injEq] at h2
      obtain ⟨rfl, rfl⟩ := h2
      split
      · rename_i e2 heq3
        rw [heq3] at h3
        cases h3
      · rename_i d2 b3h heq3
        rw [heq3] at h3
        simp only [Except.ok.injEq, Prod.mk.injEq] at h3
        obtain ⟨rfl, rfl⟩ := h3
        simp only [h4]

lemma parseItems_decode : ∀ (items : List RtcpSourceDescriptionItem) (b : Octets),
    (∀ i ∈ items, i.item_type ≠ 0 ∧ i.item_type < 256 ∧ i.data.length ≤ 255) →
    (∀ k, k < (itemsBytes items).length + 1 →
      b.buf.getD (b.off + k) 0 = (itemsBytes items ++ [0]).getD k 0) →
    b.off + (itemsBytes items).length + 1 +
        get_padding (b.off + (itemsBytes items).length + 1) ≤ b.buf.length →
    parseItems b = .ok (items, ⟨b.buf,
      b.off + (itemsBytes items).length + 1 +
        get_padding (b.off + (itemsBytes items).length + 1)⟩) := by
  intro items
  induction items with
  | nil =>
    intro b hwf hk hb
    simp only [show (itemsBytes []).length = 0 from rfl, Nat.add_zero] at hk hb ⊢
    have h0 : b.buf.getD b.off 0 = 0 := by
      have := hk 0 (by omega)
      simpa [itemsBytes] using this
    have e1 : b.get_u8 = .ok (0, ⟨b.buf, b.off + 1⟩) := by
      rw [get_u8_eval (by have := get_padding_lt (b.off + 1); omega), h0]
    by_cases hp : get_padding (b.off + 1) = 0
    · rw [hp, Nat.add_zero]
      exact parseItems_term_pad0 e1 hp
    · have e2 : (⟨b.buf, b.off + 1⟩ : Octets).get_bytes (get_padding (b.off + 1)) =
          .ok ((b.buf.drop (b.off + 1)).take (get_padding (b.off + 1)),
            ⟨b.buf, b.off + 1 + get_padding (b.off + 1)⟩) :=
        get_bytes_eval (by simp only []; omega)
      exact parseItems_term_pad_ok e1 (show 0 < get_padding
        (⟨b.buf, b.off + 1⟩ : Octets).off by simp only []; omega) e2
  | cons i rest ih =>
    intro b hwf hk hb
    obtain ⟨ht0, ht256, hlen⟩ := hwf i (by simp)
    have hL := itemsBytes_cons_length i rest
    have hpadlt := get_padding_lt (b.off + (itemsBytes (i :: rest)).length + 1)
    have hgt : b.buf.getD b.off 0 = i.item_type := by
      have := hk 0 (by omega)
      simpa [itemsBytes, itemBytes, Nat.mod_eq_of_lt ht256] using this
    have hgl : b.buf.getD (b.off + 1) 0 = i.data.length := by
      have := hk 1 (by omega)
      simpa [itemsBytes, itemBytes, Nat.mod_eq_of_lt (by omega : i.data.length < 256)]
        using this
    have hgd : ∀ k, k < i.data.length →
        b.buf.getD (b.off + 2 + k) 0 = i.data.getD k 0 := by
      intro k hk2
      have := hk (2 + k) (by omega)
      rw [show b.off + (2 + k) = b.off + 2 + k from by omega] at this
      rw [this, show (2 : Nat) + k = k + 1 + 1 from by omega]
      simp only [itemsBytes, itemBytes, List.cons_append, List.getD_cons_succ]
      rw [List.append_assoc, List.getD_append _ _ _ _ (by omega)]
    have e1 : b.get_u8 = .ok (i.item_type, ⟨b.buf, b.off + 1⟩) := by
      rw [get_u8_eval (by omega), hgt]
    have e2 : (⟨b.buf, b.off + 1⟩ : Octets).get_u8 =
        .ok (i.data.length, ⟨b.buf, b.off + 1 + 1⟩) := by
      rw [get_u8_eval (show (⟨b.buf, b.off + 1⟩ : Octets).off <
        (⟨b.buf, b.off + 1⟩ : Octets).buf.length by simp only []; omega)]
      simp only []
      rw [hgl]
    have hslice : ((b.buf.drop (b.off + 1 + 1)).take i.data.length) = i.data := by
      rw [show b.off + 1 + 1 = b.off + 2 from by omega]
      exact drop_take_eq_of_getD i.data b.buf (b.off + 2) (by omega) hgd
    have e3 : (⟨b.buf, b.off + 1 + 1⟩ : Octets).get_bytes i.data.length =
        .ok (i.data, ⟨b.buf, b.off + 1 + 1 + i.data.length⟩) := by
      rw [get_bytes_eval (show (⟨b.buf, b.off + 1 + 1⟩ : Octets).off + i.data.length ≤
        (⟨b.buf, b.off + 1 + 1⟩ : Octets).buf.length by simp only []; omega)]
      simp only []
      rw [hslice]
    have e4 : parseItems (⟨b.buf, b.off + 1 + 1 + i.data.length⟩ : Octets) =
        .ok (rest, ⟨b.buf, b.off + (itemsBytes (i :: rest)).length + 1 +
          get_padding (b.off + (itemsBytes (i :: rest)).length + 1)⟩) := by
      have hrec := ih ⟨b.buf, b.off + 1 + 1 + i.data.length⟩
        (fun j hj => hwf j (by simp [hj]))
        (by
          intro k hk2
          simp only []
          have := hk (2 + i.data.length + k) (by omega)
          rw [show b.off + (2 + i.data.length + k) =
            b.off + 1 + 1 + i.data.length + k from by omega] at this
          rw [this, show 2 + i.data.length + k = i.data.length + k + 1 + 1 from by omega]
          simp only [itemsBytes, itemBytes, List.cons_append, List.getD_cons_succ]
          rw [List.append_assoc, List.getD_append_right _ _ _ _ (by omega)]
          congr 1
          omega)
        (by
          simp only []
          rw [show b.off + 1 + 1 + i.data.length + (itemsBytes rest).length + 1 =
            b.off + (itemsBytes (i :: rest)).length + 1 from by omega]
          omega)
      rw [hrec]
      simp only []
      rw [show b.off + 1 + 1 + i.data.length + (itemsBytes rest).length + 1 =
        b.off + (itemsBytes (i :: rest)).length + 1 from by omega]
    exact parseItems_cons_ok e1 ht0 e2 e3 e4

lemma chunkBytes_length (c : RtcpSourceDescriptionChunk) (o : Nat) :
    (chunkBytes c o).length =
      chunkUnpadded c + get_padding (o + chunkUnpadded c) := by
  simp [chunkBytes, chunkUnpadded, u32Bytes]
  omega

lemma from_bytes_decode {c : RtcpSourceDescriptionChunk} {o : Nat} {buf : List Nat}
    (hssrc : c.ssrc < 4294967296)
    (hitems : ∀ i ∈ c.items, i.item_type ≠ 0 ∧ i.item_type < 256 ∧ i.data.length ≤ 255)
    (hk : ∀ k, k < (chunkBytes c o).length →
      buf.getD (o + k) 0 = (chunkBytes c o).getD k 0)
    (hb : o + (chunkBytes c o).length ≤ buf.length) :
    RtcpSourceDescriptionChunk.from_bytes ⟨buf, o⟩ =
      .ok (c, ⟨buf, o + (chunkBytes c o).length⟩) := by
  have hcl := chunkBytes_length c o
  have hcu : chunkUnpadded c = 4 + (itemsBytes c.items).length + 1 := rfl
  have hpadlt := get_padding_lt (o + chunkUnpadded c)
  have hb4 : ∀ k, k < 4 → buf.getD (o + k) 0 = (u32Bytes c.ssrc).getD k 0 := by
    intro k hk4
    rw [hk k (by omega)]
    unfold chunkBytes
    rw [List.getD_append _ _ _ _ (by simp [u32Bytes]; omega),
      List.getD_append _ _ _ _ (by simp [u32Bytes]; omega),
      List.getD_append _ _ _ _ (by simp [u32Bytes]; omega)]
  have h0 := hb4 0 (by omega)
  rw [Nat.add_zero] at h0
  have hssrcval : buf.getD o 0 * 16777216 + buf.getD (o + 1) 0 * 65536 +
      buf.getD (o + 2) 0 * 256 + buf.getD (o + 3) 0 = c.ssrc := by
    rw [h0, hb4 1 (by omega), hb4 2 (by omega), hb4 3 (by omega)]
    simp only [u32Bytes, List.getD_cons_zero, List.getD_cons_succ]
    omega
  have e1 : (⟨buf, o⟩ : Octets).get_u32 = .ok (c.ssrc, ⟨buf, o + 4⟩) := by
    rw [get_u32_eval (show (⟨buf, o⟩ : Octets).off + 4 ≤
      (⟨buf, o⟩ : Octets).buf.length by simp only []; omega)]
    simp only []
    rw [hssrcval]
  have e2 : parseItems (⟨buf, o + 4⟩ : Octets) = .ok (c.items,
      ⟨buf, o + (chunkBytes c o).length⟩) := by
    have hdec := parseItems_decode c.items ⟨buf, o + 4⟩ hitems
      (by
        intro k hk2
        simp only []
        have := hk (4 + k) (by omega)
        rw [show o + (4 + k) = o + 4 + k from by omega] at this
        rw [this]
        unfold chunkBytes
        rw [List.getD_append _ _ _ _ (by simp [u32Bytes]; omega)]
        rcases Nat.lt_or_ge k (itemsBytes c.items).length with hlt | hge
        · rw [List.getD_append _ _ _ _ (by simp [u32Bytes]; omega)]
          rw [List.getD_append_right _ _ _ _ (by simp [u32Bytes])]
          rw [List.getD_append _ _ _ _ hlt,
            show 4 + k - (u32Bytes c.ssrc).length = k from by simp [u32Bytes]]
        · have hkeq : k = (itemsBytes c.items).length := by omega
          subst hkeq
          rw [List.getD_append_right _ _ _ _ (by simp [u32Bytes]; omega),
            List.getD_append_right _ _ _ _ (by omega)]
          simp [u32Bytes])
      (by
        simp only []
        rw [show o + 4 + (itemsBytes c.items).length + 1 = o + chunkUnpadded c
          from by omega]
        omega)
    rw [hdec]
    simp only []
    rw [show o + 4 + (itemsBytes c.items).length + 1 = o + chunkUnpadded c
      from by omega]
    rw [show o + chunkUnpadded c + get_padding (o + chunkUnpadded c) =
      o + (chunkBytes c o).length from by omega]
  rw [RtcpSourceDescriptionChunk.from_bytes]
  simp only [e1, e2]

lemma chunksFromBytes_decode : ∀ (cs : List RtcpSourceDescriptionChunk) (o : Nat)
    (buf : List Nat),
    (∀ c ∈ cs, c.ssrc < 4294967296 ∧
      ∀ i ∈ c.items, i.item_type ≠ 0 ∧ i.item_type < 256 ∧ i.data.length ≤ 255) →
    (∀ k, k < (packetBytes cs o).length →
      buf.getD (o + k) 0 = (packetBytes cs o).getD k 0) →
    o + (packetBytes cs o).length ≤ buf.length →
    chunksFromBytes cs.length ⟨buf, o⟩ =
      .ok (cs, ⟨buf, o + (packetBytes cs o).length⟩) := by
  intro cs
  induction cs with
  | nil =>
    intro o buf hwf hk hb
    simp [chunksFromBytes, packetBytes]
  | cons c rest ih =>
    intro o buf hwf hk hb
    have hpl : (packetBytes (c :: rest) o).length =
        (chunkBytes c o).length + (packetBytes rest (o + (chunkBytes c o).length)).length := by
      simp [packetBytes]
    obtain ⟨hssrc, hitems⟩ := hwf c (by simp)
    have e1 : RtcpSourceDescriptionChunk.from_bytes ⟨buf, o⟩ =
        .ok (c, ⟨buf, o + (chunkBytes c o).length⟩) := by
      apply from_bytes_decode hssrc hitems
      · intro k hk2
        rw [hk k (by omega)]
        simp only [packetBytes]
        rw [List.getD_append _ _ _ _ hk2]
      · omega
    have e2 : chunksFromBytes rest.length ⟨buf, o + (chunkBytes c o).length⟩ =
        .ok (rest, ⟨buf, o + (chunkBytes c o).length +
          (packetBytes rest (o + (chunkBytes c o).length)).length⟩) := by
      apply ih
      · intro j hj
        exact hwf j (by simp [hj])
      · intro k hk2
        have := hk ((chunkBytes c o).length + k) (by omega)
        rw [show o + ((chunkBytes c o).length + k) =
          o + (chunkBytes c o).length + k from by omega] at this
        rw [this]
        simp only [packetBytes]
        rw [List.getD_append_right _ _ _ _ (by omega)]
        congr 1
        omega
      · omega
    show chunksFromBytes (rest.length + 1) ⟨buf, o⟩ = _
    rw [chunksFromBytes]
    simp only [e1, e2]
    rw [show o + (chunkBytes c o).length +
      (packetBytes rest (o + (chunkBytes c o).length)).length =
      o + (packetBytes (c :: rest) o).length from by omega]

lemma packet_roundtrip_aux {p : RtcpSourceDescriptionPacket} {buf0 : List Nat}
    {out : Octets}
    (hwf : ∀ c ∈ p.chunks, c.ssrc < 4294967296 ∧
      ∀ i ∈ c.items, i.item_type ≠ 0 ∧ i.item_type < 256 ∧ i.data.length ≤ 255)
    (hcount : p.chunks.length ≤ 255)
    (henc : p.to_bytes ⟨buf0, 0⟩ = .ok out) :
    RtcpSourceDescriptionPacket.from_bytes ⟨out.buf, 0⟩ p.get_chunks_length =
      .ok (p, ⟨out.buf, out.off⟩) := by
  have hw := putChunks_ok p.chunks ⟨buf0, 0⟩ out (by simp) henc
  obtain ⟨hb, hsp, hoff, hlen⟩ := writeBytes_ok hw
  simp only [] at hb hsp hoff hlen
  have hcnt : p.get_chunks_length = p.chunks.length :=
    Nat.mod_eq_of_lt (by omega)
  have hk : ∀ k, k < (packetBytes p.chunks 0).length →
      out.buf.getD (0 + k) 0 = (packetBytes p.chunks 0).getD k 0 := by
    intro k hk2
    rw [Nat.zero_add, hsp, splice_zero]
    exact List.getD_append _ _ _ _ hk2
  have hdec := chunksFromBytes_decode p.chunks 0 out.buf hwf hk (by omega)
  rw [RtcpSourceDescriptionPacket.from_bytes, hcnt]
  simp only [hdec]
  rw [show (0 : Nat) + (packetBytes p.chunks 0).length = out.off from by omega]

lemma get_u8_error {b : Octets} {e : RtcpError} (h : b.get_u8 = .error e) :
    e = .BufferTooShort ∧ b.buf.length < b.off + 1 := by
  unfold Octets.get_u8 at h
  split at h
  · cases h
  · cases h
    exact ⟨rfl, by omega⟩

lemma get_u32_error {b : Octets} {e : RtcpError} (h : b.get_u32 = .error e) :
    e = .BufferTooShort ∧ b.buf.length < b.off + 4 := by
  unfold Octets.get_u32 at h
  split at h
  · cases h
  · cases h
    exact ⟨rfl, by omega⟩

lemma get_bytes_error {b : Octets} {n : Nat} {e : RtcpError}
    (h : b.get_bytes n = .error e) :
    e = .BufferTooShort ∧ b.buf.length < b.off + n := by
  unfold Octets.get_bytes at h
  split at h
  · cases h
  · cases h
    exact ⟨rfl, by omega⟩

lemma get_u8_error_eval {b : Octets} (h : b.buf.length < b.off + 1) :
    b.get_u8 = .error .BufferTooShort := by
  unfold Octets.get_u8
  rw [if_neg (by omega)]

lemma get_bytes_error_eval {b : Octets} {n : Nat} (h : b.buf.length < b.off + n) :
    b.get_bytes n = .error .BufferTooShort := by
  unfold Octets.get_bytes
  rw [if_neg (by omega)]

lemma parseItems_error : ∀ (n : Nat) (b : Octets), b.buf.length - b.off = n →
    ∀ e, parseItems b = .error e → e = .BufferTooShort := by
  intro n
  induction n using Nat.strong_induction_on with
  | _ n ih =>
    intro b hn e h
    rw [parseItems] at h
    split at h
    · rename_i e2 heq
      cases h
      exact (get_u8_error heq).1
    · rename_i t b1 heq
      obtain ⟨e1b, e1o, e1l, -⟩ := Octets.get_u8_ok heq
      split at h
      · simp only [] at h
        split at h
        · split at h
          · rename_i heq2
            cases h
            exact (get_bytes_error heq2).1
          · cases h
        · cases h
      · split at h
        · rename_i heq2
          cases h
          exact (get_u8_error heq2).1
        · rename_i L b2 heq2
          obtain ⟨e2b, e2o, e2l, -⟩ := Octets.get_u8_ok heq2
          split at h
          · rename_i heq3
            cases h
            exact (get_bytes_error heq3).1
          · rename_i d b3 heq3
            obtain ⟨e3b, e3o, e3l, -⟩ := Octets.get_bytes_ok heq3
            split at h
            · rename_i heq4
              cases h
              have hb3 : b3.buf = b.buf := by rw [e3b, e2b, e1b]
              have hdec : b3.buf.length - b3.off < n := by
                rw [hb3, e3o, e2o, e1o]
                omega
              exact ih (b3.buf.length - b3.off) hdec b3 rfl e heq4
            · cases h

lemma from_bytes_error {b : Octets} {e : RtcpError}
    (h : RtcpSourceDescriptionChunk.from_bytes b = .error e) :
    e = .BufferTooShort := by
  rw [RtcpSourceDescriptionChunk.from_bytes] at h
  split at h
  · rename_i heq
    cases h
    exact (get_u32_error heq).1
  · rename_i v b1 heq
    split at h
    · rename_i heq2
      cases h
      exact parseItems_error (b1.buf.length - b1.off) b1 rfl e heq2
    · cases h

lemma parseItems_no_terminator : ∀ (n : Nat) (b : Octets), b.buf.length - b.off = n →
    (∀ i, b.off ≤ i → i < b.buf.length → b.buf.getD i 0 ≠ 0) →
    parseItems b = .error .BufferTooShort := by
  intro n
  induction n using Nat.strong_induction_on with
  | _ n ih =>
    intro b hn hz
    rcases Nat.lt_or_ge b.off b.buf.length with hlt | hge
    · have e1 := get_u8_eval hlt
      have ht : b.buf.getD b.off 0 ≠ 0 := hz b.off (by omega) hlt
      rcases Nat.lt_or_ge (b.off + 1) b.buf.length with hlt2 | hge2
      · have e2 : (⟨b.buf, b.off + 1⟩ : Octets).get_u8 =
            .ok (b.buf.getD (b.off + 1) 0, ⟨b.buf, b.off + 1 + 1⟩) :=
          get_u8_eval (by simp only []; omega)
        set L := b.buf.getD (b.off + 1) 0 with hLdef
        rcases Nat.lt_or_ge b.buf.length (b.off + 1 + 1 + L) with hlt3 | hge3
        · have e3 : (⟨b.buf, b.off + 1 + 1⟩ : Octets).get_bytes L =
              .error .BufferTooShort :=
            get_bytes_error_eval (by simp only []; omega)
          exact parseItems_data_err e1 ht e2 e3
        · have e3 : (⟨b.buf, b.off + 1 + 1⟩ : Octets).get_bytes L =
              .ok ((b.buf.drop (b.off + 1 + 1)).take L, ⟨b.buf, b.off + 1 + 1 + L⟩) :=
            get_bytes_eval (by simp only []; omega)
          have e4 : parseItems (⟨b.buf, b.off + 1 + 1 + L⟩ : Octets) =
              .error .BufferTooShort := by
            apply ih (b.buf.length - (b.off + 1 + 1 + L)) (by omega)
              ⟨b.buf, b.off + 1 + 1 + L⟩ (by simp only [])
            intro i hi1 hi2
            exact hz i (by simp only [] at hi1; omega) (by simp only [] at hi2; exact hi2)
          exact parseItems_rec_err e1 ht e2 e3 e4
      · have e2 : (⟨b.buf, b.off + 1⟩ : Octets).get_u8 = .error .BufferTooShort :=
          get_u8_error_eval (by simp only []; omega)
        exact parseItems_len_err e1 ht e2
    · have e1 : b.get_u8 = .error .BufferTooShort := get_u8_error_eval (by omega)
      exact parseItems_u8_err e1

lemma putItems_error : ∀ (items : List RtcpSourceDescriptionItem) (b : Octets)
    (e : RtcpError), putItems items b = .error e → e = .BufferTooShort
  | [], b, e, h => by
    simp only [putItems] at h
    cases h
  | item :: rest, b, e, h => by
    rw [putItems] at h
    cases hu1 : b.put_u8 item.item_type with
    | error e2 =>
      simp only [hu1] at h
      cases h
      exact writeBytes_error hu1
    | ok o1 =>
      simp only [hu1] at h
      cases hu2 : o1.put_u8 (item.data.length % 256) with
      | error e2 =>
        simp only [hu2] at h
        cases h
        exact writeBytes_error hu2
      | ok o2 =>
        simp only [hu2] at h
        cases hu3 : o2.put_bytes item.data with
        | error e2 =>
          simp only [hu3] at h
          cases h
          exact writeBytes_error hu3
        | ok o3 =>
          simp only [hu3] at h
          exact putItems_error rest o3 e h

lemma to_bytes_error {c : RtcpSourceDescriptionChunk} {b : Octets} {e : RtcpError}
    (h : c.to_bytes b = .error e) : e = .BufferTooShort := by
  rw [RtcpSourceDescriptionChunk.to_bytes] at h
  cases hu1 : b.put_u32 c.ssrc with
  | error e2 =>
    simp only [hu1] at h
    cases h
    exact writeBytes_error hu1
  | ok o1 =>
    simp only [hu1] at h
    cases hu2 : putItems c.items o1 with
    | error e2 =>
      simp only [hu2] at h
      cases h
      exact putItems_error c.items o1 e hu2
    | ok o2 =>
      simp only [hu2] at h
      cases hu3 : o2.put_u8 0 with
      | error e2 =>
        simp only [hu3] at h
        cases h
        exact writeBytes_error hu3
      | ok o3 =>
        simp only [hu3] at h
        rcases hlt : get_padding o3.off with _ | _ | _ | _ | m
        · simp only [hlt] at h
          cases h
        · simp only [hlt] at h
          exact writeBytes_error h
        · simp only [hlt] at h
          exact writeBytes_error h
        · simp only [hlt] at h
          exact writeBytes_error h
        · have := get_padding_lt o3.off
          omega

lemma parseItems_progress : ∀ (n : Nat) (b : Octets), b.buf.length - b.off = n →
    ∀ its b2, parseItems b = .ok (its, b2) →
    b2.buf = b.buf ∧ b.off < b2.off ∧ b2.off ≤ b.buf.length := by
  intro n
  induction n using Nat.strong_induction_on with
  | _ n ih =>
    intro b hn its b2 h
    rw [parseItems] at h
    split at h
    · cases h
    · rename_i t b1 heq
      obtain ⟨e1b, e1o, e1l, -⟩ := Octets.get_u8_ok heq
      split at h
      · simp only [] at h
        split at h
        · split at h
          · cases h
          · rename_i d b2h heq2
            obtain ⟨e2b, e2o, e2l, -⟩ := Octets.get_bytes_ok heq2
            cases h
            have hlen := congrArg List.length e1b
            exact ⟨by rw [e2b, e1b], by omega, by omega⟩
        · cases h
          have hlen := congrArg List.length e1b
          exact ⟨e1b, by omega, by omega⟩
      · split at h
        · cases h
        · rename_i L b2h heq2
          obtain ⟨e2b, e2o, e2l, -⟩ := Octets.get_u8_ok heq2
          split at h
          · cases h
          · rename_i d b3 heq3
            obtain ⟨e3b, e3o, e3l, -⟩ := Octets.get_bytes_ok heq3
            split at h
            · cases h
            · rename_i rest b4 heq4
              cases h
              have hb3 : b3.buf = b.buf := by rw [e3b, e2b, e1b]
              have hrec := ih (b3.buf.length - b3.off) (by rw [hb3, e3o, e2o, e1o]; omega)
                b3 rfl rest b2 heq4
              obtain ⟨r1, r2, r3⟩ := hrec
              have hlen := congrArg List.length hb3
              exact ⟨by rw [r1, hb3], by omega, by omega⟩

lemma chunksFromBytes_length : ∀ (n : Nat) (b : Octets) cs b2,
    chunksFromBytes n b = .ok (cs, b2) → cs.length = n
  | 0, b, cs, b2, h => by
    simp only [chunksFromBytes] at h
    simp only [Except.ok.injEq, Prod.mk.injEq] at h
    obtain ⟨rfl, rfl⟩ := h
    rfl
  | n + 1, b, cs, b2, h => by
    rw [chunksFromBytes] at h
    split at h
    · cases h
    · rename_i c b1 heq
      split at h
      · cases h
      · rename_i cs2 b3 heq2
        simp only [Except.ok.injEq, Prod.mk.injEq] at h
        obtain ⟨rfl, rfl⟩ := h
        have := chunksFromBytes_length n b1 cs2 b3 heq2
        simp [this]

lemma foldl_items_sum : ∀ (items : List RtcpSourceDescriptionItem) (init : Nat),
    items.foldl (fun sum a => sum + 2 + a.data.length) init =
      init + (itemsBytes items).length
  | [], init => by simp [itemsBytes]
  | i :: rest, init => by
    rw [List.foldl_cons, foldl_items_sum rest, itemsBytes_cons_length]
    omega

lemma get_length_eq (c : RtcpSourceDescriptionChunk) :
    c.get_length = (chunkUnpadded c + get_padding (chunkUnpadded c)) % 4294967296 := by
  unfold RtcpSourceDescriptionChunk.get_length chunkUnpadded
  simp only []
  rw [foldl_items_sum]
  simp only [Nat.zero_add]

lemma get_length_mod_four (c : RtcpSourceDescriptionChunk) :
    c.get_length % 4 = 0 := by
  rw [get_length_eq]
  rw [Nat.mod_mod_of_dvd _ (by norm_num)]
  exact get_padding_aligns (chunkUnpadded c)

lemma take_drop_congr {bufA bufB : List Nat} {o L : Nat}
    (hlen : bufB.length = bufA.length) (hb : o + L ≤ bufA.length)
    (hag : ∀ i, o ≤ i → i < o + L → bufB.getD i 0 = bufA.getD i 0) :
    (bufB.drop o).take L = (bufA.drop o).take L := by
  apply List.ext_getElem
  · simp
    omega
  · intro i h1 h2
    have hi : i < L := by simp at h1; omega
    have hx := hag (o + i) (by omega) (by omega)
    rw [List.getD_eq_getElem bufB 0 (show o + i < bufB.length by omega)] at hx
    rw [List.getD_eq_getElem bufA 0 (show o + i < bufA.length by omega)] at hx
    simp only [List.getElem_take, List.getElem_drop]
    exact hx

lemma parseItems_agree : ∀ (n : Nat) (b1 : Octets), b1.buf.length - b1.off = n →
    ∀ its b1' (b2 : Octets), parseItems b1 = .ok (its, b1') →
    b2.off = b1.off → b2.buf.length = b1.buf.length →
    (∀ i, b1.off ≤ i → i < b1.off + (itemsBytes its).length + 1 →
      b2.buf.getD i 0 = b1.buf.getD i 0) →
    parseItems b2 = .ok (its, ⟨b2.buf, b1'.off⟩) := by
  intro n
  induction n using Nat.strong_induction_on with
  | _ n ih =>
    intro b1 hn its b1' b2 h ho hl hag
    rw [parseItems] at h
    split at h
    · cases h
    · rename_i t m1 heq
      obtain ⟨e1b, e1o, e1l, e1v⟩ := Octets.get_u8_ok heq
      have hm1len := congrArg List.length e1b
      have f1 : b2.get_u8 = .ok (t, ⟨b2.buf, b2.off + 1⟩) := by
        rw [get_u8_eval (by omega)]
        rw [hag b2.off (by omega) (by omega), ho, ← e1v]
      split at h
      · rename_i ht0
        subst ht0
        simp only [] at h
        split at h
        · rename_i hp
          have hp' : get_padding (b1.off + 1) > 0 := by rw [← e1o]; exact hp
          split at h
          · cases h
          · rename_i d m2 heq2
            obtain ⟨e2b, e2o, e2l, -⟩ := Octets.get_bytes_ok heq2
            cases h
            have hm2len := congrArg List.length e2b
            rw [e1o] at e2o
            rw [e1o, hm1len] at e2l
            have f2 : (⟨b2.buf, b2.off + 1⟩ : Octets).get_bytes
                (get_padding (b2.off + 1)) =
                .ok ((b2.buf.drop (b2.off + 1)).take (get_padding (b2.off + 1)),
                  ⟨b2.buf, b2.off + 1 + get_padding (b2.off + 1)⟩) := by
              apply get_bytes_eval
              simp only []
              rw [ho, hl]
              exact e2l
            have hres := parseItems_term_pad_ok f1
              (show 0 < get_padding ((⟨b2.buf, b2.off + 1⟩ : Octets).off) by
                simp only []; rw [ho]; exact hp') f2
            rw [hres, show b2.off + 1 + get_padding (b2.off + 1) = b1'.off from by
              rw [ho]; omega]
        · rename_i hp
          have hp' : ¬ get_padding (b1.off + 1) > 0 := by rw [← e1o]; exact hp
          cases h
          have hres := parseItems_term_pad0 f1
            (show get_padding ((⟨b2.buf, b2.off + 1⟩ : Octets).off) = 0 by
              simp only []; rw [ho]; omega)
          rw [hres, show b2.off + 1 = b1'.off from by rw [ho]; omega]
      · rename_i ht0
        split at h
        · cases h
        · rename_i L m2 heq2
          obtain ⟨e2b, e2o, e2l, e2v⟩ := Octets.get_u8_ok heq2
          have hm2len := congrArg List.length e2b
          split at h
          · cases h
          · rename_i d m3 heq3
            obtain ⟨e3b, e3o, e3l, e3v⟩ := Octets.get_bytes_ok heq3
            have hm3len := congrArg List.length e3b
            split at h
            · cases h
            · rename_i rest b4 heq4
              simp only [Except.ok.injEq, Prod.mk.injEq] at h
              obtain ⟨rfl, rfl⟩ := h
              have hdlen : d.length = L := by
                rw [e3v]
                simp
                omega
              have hreglen : (itemsBytes (⟨t, d⟩ :: rest)).length =
                  2 + L + (itemsBytes rest).length := by
                rw [itemsBytes_cons_length]
                simp [hdlen]
              have hLv : b1.buf.getD (b1.off + 1) 0 = L := by
                rw [e2v, e1b, e1o]
              have f2 : (⟨b2.buf, b2.off + 1⟩ : Octets).get_u8 =
                  .ok (L, ⟨b2.buf, b2.off + 1 + 1⟩) := by
                rw [get_u8_eval (by simp only []; omega)]
                simp only []
                rw [hag (b2.off + 1) (by omega) (by omega), ho, hLv]
              have hd2 : (b2.buf.drop (b2.off + 1 + 1)).take L = d := by
                rw [e3v, e2b, e1b, show m2.off = b1.off + 1 + 1 from by omega, ho]
                apply take_drop_congr hl (by omega)
                intro i hi1 hi2
                exact hag i (by omega) (by omega)
              have f3 : (⟨b2.buf, b2.off + 1 + 1⟩ : Octets).get_bytes L =
                  .ok (d, ⟨b2.buf, b2.off + 1 + 1 + L⟩) := by
                rw [get_bytes_eval (by simp only []; omega)]
                simp only []
                rw [hd2]
              have f4 : parseItems (⟨b2.buf, b2.off + 1 + 1 + L⟩ : Octets) =
                  .ok (rest, ⟨b2.buf, b4.off⟩) := by
                have hm3 : m3.buf = b1.buf := by rw [e3b, e2b, e1b]
                have hm3l := congrArg List.length hm3
                have hm3o : m3.off = b1.off + 1 + 1 + L := by omega
                exact ih (m3.buf.length - m3.off)
                  (by rw [hm3l, hm3o]; omega)
                  m3 rfl rest b4 ⟨b2.buf, b2.off + 1 + 1 + L⟩ heq4
                  (by simp only []; omega)
                  (by simp only []; rw [hl, hm3l])
                  (by
                    intro i hi1 hi2
                    rw [hm3o] at hi1 hi2
                    rw [hm3]
                    exact hag i (by omega) (by omega))
              exact parseItems_cons_ok f1 ht0 f2 f3 f4

lemma Octets.get_u32_ok {b : Octets} {v : Nat} {b2 : Octets}
    (h : b.get_u32 = .ok (v, b2)) :
    b2.buf = b.buf ∧ b2.off = b.off + 4 ∧ b.off + 4 ≤ b.buf.length ∧
      v = b.buf.getD b.off 0 * 16777216 + b.buf.getD (b.off + 1) 0 * 65536 +
        b.buf.getD (b.off + 2) 0 * 256 + b.buf.getD (b.off + 3) 0 := by
  unfold Octets.get_u32 at h
  split at h
  · cases h
    exact ⟨rfl, rfl, by omega, rfl⟩
  · cases h

lemma itemsBytes_length_sum : ∀ (items : List RtcpSourceDescriptionItem),
    (itemsBytes items).length = (items.map (fun i => 2 + i.data.length)).sum
  | [] => by simp [itemsBytes]
  | i :: rest => by
    rw [itemsBytes_cons_length, List.map_cons, List.sum_cons,
      itemsBytes_length_sum rest]

deriving instance DecidableEq for Except

/-- C2 (amended): when the output cursor starts at a 4-byte-aligned absolute
offset and the chunk's true encoded size fits in a u32, a successful
to_bytes advances the cursor by exactly get_length() bytes and preserves
the buffer's capacity. -/
theorem chunk_to_bytes_advances_get_length (c : RtcpSourceDescriptionChunk)
    (b out : Octets) (halign : b.off % 4 = 0)
    (hfit : chunkUnpadded c + get_padding (chunkUnpadded c) < 4294967296)
    (h : c.to_bytes b = .ok out) :
    out.off = b.off + c.get_length ∧ out.buf.length = b.buf.length := by
  have hw := to_bytes_ok h
  obtain ⟨hb, hs, hoff, hlen⟩ := writeBytes_ok hw
  have hc := chunkBytes_length c b.off
  rw [get_padding_add_mul_four halign] at hc
  rw [get_length_eq, Nat.mod_eq_of_lt hfit]
  exact ⟨by omega, hlen⟩

/-- C2 counterexample: the chunk with ssrc 0 and no items encoded at the
unaligned absolute offset 1 of a 9-byte buffer: the write succeeds with
sufficient remaining capacity (8 bytes ≥ get_length = 8), but the cursor
advances by 7 bytes, from offset 1 to offset 8, not by get_length = 8. -/
theorem chunk_to_bytes_advance_counterexample :
    RtcpSourceDescriptionChunk.to_bytes ⟨0, []⟩ ⟨List.replicate 9 0, 1⟩ =
      .ok ⟨List.replicate 9 0, 8⟩ ∧
    (⟨0, []⟩ : RtcpSourceDescriptionChunk).get_length = 8 ∧
    (List.replicate 9 0 : List Nat).length - 1 ≥
      (⟨0, []⟩ : RtcpSourceDescriptionChunk).get_length ∧
    (8 : Nat) ≠ 1 + (⟨0, []⟩ : RtcpSourceDescriptionChunk).get_length := by
  decide

/-- C2 witness: the concrete scenario chunk encoded at aligned offset 0 of
a 12-byte buffer advances the cursor by its get_length, 12. -/
theorem chunk_to_bytes_advances_get_length_witness :
    (⟨[18, 52, 86, 120, 1, 3, 97, 98, 99, 0, 0, 0], 12⟩ : Octets).off =
      (⟨List.replicate 12 0, 0⟩ : Octets).off +
        (⟨0x12345678, [⟨1, [97, 98, 99]⟩]⟩ : RtcpSourceDescriptionChunk).get_length ∧
    (⟨[18, 52, 86, 120, 1, 3, 97, 98, 99, 0, 0, 0], 12⟩ : Octets).buf.length =
      (⟨List.replicate 12 0, 0⟩ : Octets).buf.length :=
  chunk_to_bytes_advances_get_length ⟨0x12345678, [⟨1, [97, 98, 99]⟩]⟩
    ⟨List.replicate 12 0, 0⟩ ⟨[18, 52, 86, 120, 1, 3, 97, 98, 99, 0, 0, 0], 12⟩
    (by decide) (by decide) (by decide)

/-- C3 (amended): get_length equals the spec's sum (4 + per-item 2+len + 1
terminator + padding) reduced mod 2^32, the u32 cast in the source; in
particular it is always a multiple of 4. -/
theorem chunk_get_length_formula (c : RtcpSourceDescriptionChunk) :
    c.get_length = (4 + (c.items.map (fun i => 2 + i.data.length)).sum + 1 +
      get_padding (4 + (c.items.map (fun i => 2 + i.data.length)).sum + 1)) %
        4294967296 ∧
    c.get_length % 4 = 0 := by
  refine ⟨?_, get_length_mod_four c⟩
  rw [get_length_eq]
  rw [show chunkUnpadded c =
    4 + (c.items.map (fun i => 2 + i.data.length)).sum + 1 from by
      rw [chunkUnpadded, itemsBytes_length_sum]]

/-- C3 counterexample: a chunk whose single item carries 2^32 - 7 data
bytes has true encoded size exactly 2^32, but get_length returns the u32
cast of that sum, 0, not the sum itself. -/
theorem chunk_get_length_counterexample :
    (⟨0, [⟨1, List.replicate 4294967289 0⟩]⟩ : RtcpSourceDescriptionChunk).get_length
      = 0 ∧
    4 + (([⟨1, List.replicate 4294967289 0⟩] :
        List RtcpSourceDescriptionItem).map (fun i => 2 + i.data.length)).sum + 1 +
      get_padding (4 + (([⟨1, List.replicate 4294967289 0⟩] :
        List RtcpSourceDescriptionItem).map (fun i => 2 + i.data.length)).sum + 1)
      = 4294967296 ∧
    (0 : Nat) ≠ 4294967296 := by
  have hr : (List.replicate 4294967289 (0 : Nat)).length = 4294967289 :=
    List.length_replicate _ _
  have h0 : (itemsBytes ([] : List RtcpSourceDescriptionItem)).length = 0 := rfl
  have hdata : (⟨1, List.replicate 4294967289 0⟩ :
      RtcpSourceDescriptionItem).data = List.replicate 4294967289 0 := rfl
  have hsum : (([⟨1, List.replicate 4294967289 0⟩] :
      List RtcpSourceDescriptionItem).map (fun i => 2 + i.data.length)).sum =
      4294967291 := by
    rw [← itemsBytes_length_sum, itemsBytes_cons_length, hdata, hr, h0]
  have hcu : chunkUnpadded (⟨0, [⟨1, List.replicate 4294967289 0⟩]⟩ :
      RtcpSourceDescriptionChunk) = 4294967296 := by
    rw [chunkUnpadded]
    rw [show (⟨0, [⟨1, List.replicate 4294967289 0⟩]⟩ :
      RtcpSourceDescriptionChunk).items = [⟨1, List.replicate 4294967289 0⟩] from rfl,
      itemsBytes_cons_length, hdata, hr, h0]
  have hpad : get_padding 4294967296 = 0 := by
    unfold get_padding
    norm_num
  refine ⟨?_, ?_, by norm_num⟩
  · rw [get_length_eq, hcu, hpad]
  · rw [hsum, show (4 : Nat) + 4294967291 + 1 = 4294967296 from by norm_num, hpad]

/-- C8: get_chunks_length is the chunk count cast to u8, so it equals the
count mod 256, agrees with the true count exactly when the packet has at
most 255 chunks, and is total, with no check or error for larger counts. -/
theorem packet_get_chunks_length_spec (p : RtcpSourceDescriptionPacket) :
    p.get_chunks_length = p.chunks.length % 256 ∧
    (p.get_chunks_length = p.chunks.length ↔ p.chunks.length ≤ 255) := by
  refine ⟨rfl, ?_⟩
  unfold RtcpSourceDescriptionPacket.get_chunks_length
  constructor
  · intro h
    omega
  · intro h
    omega

/-- C9: to_bytes never produces the InvalidPaddingSize error: get_padding
is always in {0,1,2,3} so the defensive default arm is unreachable, and
every failure to_bytes can return is the buffer bounds error. -/
theorem chunk_to_bytes_no_invalid_padding :
    (∀ (c : RtcpSourceDescriptionChunk) (b : Octets),
      c.to_bytes b ≠ .error .InvalidPaddingSize) ∧
    (∀ n, get_padding n < 4) ∧
    (∀ (c : RtcpSourceDescriptionChunk) (b : Octets) (e : RtcpError),
      c.to_bytes b = .error e → e = .BufferTooShort) := by
  refine ⟨?_, get_padding_lt, fun c b e h => to_bytes_error h⟩
  intro c b hcontra
  exact RtcpError.noConfusion (to_bytes_error hcontra)

/-- C9 witness: a concrete failing encode (empty buffer) returns the
bounds error, and get_padding 7 is below 4. -/
theorem chunk_to_bytes_no_invalid_padding_witness :
    RtcpError.BufferTooShort = RtcpError.BufferTooShort ∧ get_padding 7 < 4 :=
  ⟨chunk_to_bytes_no_invalid_padding.2.2 ⟨0, []⟩ ⟨[], 0⟩ .BufferTooShort (by decide),
    chunk_to_bytes_no_invalid_padding.2.1 7⟩

/-- C6: the spec's concrete scenario: the chunk with ssrc 0x12345678 and
single item type 1, data "abc", encoded at 4-byte-aligned offset 0,
writes exactly the 12 bytes 12 34 56 78 01 03 61 62 63 00 00 00;
get_length is 12, a multiple of 4; and decoding those 12 bytes returns
the original chunk, consuming all 12 bytes. -/
theorem chunk_concrete_scenario :
    RtcpSourceDescriptionChunk.to_bytes ⟨0x12345678, [⟨1, [0x61, 0x62, 0x63]⟩]⟩
      ⟨List.replicate 12 0, 0⟩ =
      .ok ⟨[0x12, 0x34, 0x56, 0x78, 0x01, 0x03, 0x61, 0x62, 0x63, 0, 0, 0], 12⟩ ∧
    (⟨0x12345678, [⟨1, [0x61, 0x62, 0x63]⟩]⟩ : RtcpSourceDescriptionChunk).get_length
      = 12 ∧
    (12 : Nat) % 4 = 0 ∧
    RtcpSourceDescriptionChunk.from_bytes
      ⟨[0x12, 0x34, 0x56, 0x78, 0x01, 0x03, 0x61, 0x62, 0x63, 0, 0, 0], 0⟩ =
      .ok (⟨0x12345678, [⟨1, [0x61, 0x62, 0x63]⟩]⟩,
        ⟨[0x12, 0x34, 0x56, 0x78, 0x01, 0x03, 0x61, 0x62, 0x63, 0, 0, 0], 12⟩) := by
  refine ⟨by decide, by decide, by decide, ?_⟩
  simp [RtcpSourceDescriptionChunk.from_bytes, parseItems, Octets.get_u8,
    Octets.get_u32, Octets.get_bytes, get_padding]

/-- C1 (amended): for a packet of at most 255 well-typed chunks (u32 ssrc,
u8 item tags) whose items all have nonzero type tags and data length at
most 255, encoding into a fresh buffer (cursor at offset 0) and decoding
the resulting buffer with count = get_chunks_length returns Ok of a packet
structurally equal to the original. -/
theorem sdes_packet_roundtrip (p : RtcpSourceDescriptionPacket)
    (buf0 : List Nat) (out : Octets)
    (hty : ∀ c ∈ p.chunks, c.ssrc < 4294967296 ∧ ∀ i ∈ c.items, i.item_type < 256)
    (hcl : ∀ c ∈ p.chunks, ∀ i ∈ c.items, i.item_type ≠ 0 ∧ i.data.length ≤ 255)
    (hcount : p.chunks.length ≤ 255)
    (henc : p.to_bytes ⟨buf0, 0⟩ = .ok out) :
    RtcpSourceDescriptionPacket.from_bytes ⟨out.buf, 0⟩ p.get_chunks_length =
      .ok (p, ⟨out.buf, out.off⟩) := by
  apply packet_roundtrip_aux _ hcount henc
  intro c hc
  obtain ⟨h1, h2⟩ := hty c hc
  refine ⟨h1, fun i hi => ?_⟩
  obtain ⟨h3, h4⟩ := hcl c hc i hi
  exact ⟨h3, h2 i hi, h4⟩

/-- C1 witness: the single-chunk packet of the concrete scenario encodes
into a 12-byte buffer and decodes back to itself. -/
theorem sdes_packet_roundtrip_witness :
    RtcpSourceDescriptionPacket.from_bytes
      ⟨[18, 52, 86, 120, 1, 3, 97, 98, 99, 0, 0, 0], 0⟩
      (RtcpSourceDescriptionPacket.get_chunks_length
        ⟨[⟨0x12345678, [⟨1, [97, 98, 99]⟩]⟩]⟩) =
      .ok (⟨[⟨0x12345678, [⟨1, [97, 98, 99]⟩]⟩]⟩,
        ⟨[18, 52, 86, 120, 1, 3, 97, 98, 99, 0, 0, 0], 12⟩) :=
  sdes_packet_roundtrip ⟨[⟨0x12345678, [⟨1, [97, 98, 99]⟩]⟩]⟩
    (List.replicate 12 0) ⟨[18, 52, 86, 120, 1, 3, 97, 98, 99, 0, 0, 0], 12⟩
    (by decide) (by decide) (by decide) (by decide)

/-- C1 counterexample: a packet whose single chunk holds one item with
type tag 0 and empty data (data length 0 ≤ 255, so it satisfies the
claim's hypothesis) encodes successfully, but decoding with
count = get_chunks_length returns a packet whose chunk has no items: the
zero tag written for the item is taken as the chunk terminator. -/
theorem sdes_packet_roundtrip_counterexample :
    (∀ c ∈ ([⟨0, [⟨0, []⟩]⟩] : List RtcpSourceDescriptionChunk),
      ∀ i ∈ c.items, i.data.length ≤ 255) ∧
    RtcpSourceDescriptionPacket.to_bytes ⟨[⟨0, [⟨0, []⟩]⟩]⟩
      ⟨List.replicate 8 0, 0⟩ = .ok ⟨List.replicate 8 0, 8⟩ ∧
    RtcpSourceDescriptionPacket.from_bytes ⟨List.replicate 8 0, 0⟩
      (RtcpSourceDescriptionPacket.get_chunks_length ⟨[⟨0, [⟨0, []⟩]⟩]⟩) =
      .ok (⟨[⟨0, []⟩]⟩, ⟨List.replicate 8 0, 8⟩) ∧
    (⟨[⟨0, []⟩]⟩ : RtcpSourceDescriptionPacket) ≠ ⟨[⟨0, [⟨0, []⟩]⟩]⟩ := by
  refine ⟨by decide, by decide, ?_, by decide⟩
  simp [RtcpSourceDescriptionPacket.from_bytes, chunksFromBytes,
    RtcpSourceDescriptionChunk.from_bytes, parseItems, Octets.get_u8,
    Octets.get_u32, Octets.get_bytes, get_padding,
    RtcpSourceDescriptionPacket.get_chunks_length]

/-- C4: chunk decode failure handling: every decode failure is the
propagated buffer bounds error (never a partial chunk); a buffer whose
bytes after the ssrc are all nonzero (no terminator) fails with the bounds
error; and a first item whose declared length exceeds the remaining bytes
fails with the bounds error. -/
theorem chunk_from_bytes_error_handling :
    (∀ (b : Octets) (e : RtcpError),
      RtcpSourceDescriptionChunk.from_bytes b = .error e → e = .BufferTooShort) ∧
    (∀ b : Octets, b.off + 4 ≤ b.buf.length →
      (∀ i, b.off + 4 ≤ i → i < b.buf.length → b.buf.getD i 0 ≠ 0) →
      RtcpSourceDescriptionChunk.from_bytes b = .error .BufferTooShort) ∧
    (∀ (b : Octets) (L : Nat), b.off + 6 ≤ b.buf.length →
      b.buf.getD (b.off + 4) 0 ≠ 0 → b.buf.getD (b.off + 5) 0 = L →
      b.buf.length < b.off + 6 + L →
      RtcpSourceDescriptionChunk.from_bytes b = .error .BufferTooShort) := by
  refine ⟨fun b e h => from_bytes_error h, ?_, ?_⟩
  · intro b hb hz
    have e1 : b.get_u32 = .ok (b.buf.getD b.off 0 * 16777216 +
        b.buf.getD (b.off + 1) 0 * 65536 + b.buf.getD (b.off + 2) 0 * 256 +
        b.buf.getD (b.off + 3) 0, ⟨b.buf, b.off + 4⟩) := get_u32_eval hb
    have e2 : parseItems (⟨b.buf, b.off + 4⟩ : Octets) = .error .BufferTooShort := by
      apply parseItems_no_terminator (b.buf.length - (b.off + 4))
        ⟨b.buf, b.off + 4⟩ (by simp only [])
      intro i hi1 hi2
      exact hz i hi1 hi2
    rw [RtcpSourceDescriptionChunk.from_bytes]
    simp only [e1, e2]
  · intro b L hb ht hL hlen
    have e1 : b.get_u32 = .ok (b.buf.getD b.off 0 * 16777216 +
        b.buf.getD (b.off + 1) 0 * 65536 + b.buf.getD (b.off + 2) 0 * 256 +
        b.buf.getD (b.off + 3) 0, ⟨b.buf, b.off + 4⟩) := get_u32_eval (by omega)
    have f1 : (⟨b.buf, b.off + 4⟩ : Octets).get_u8 =
        .ok (b.buf.getD (b.off + 4) 0, ⟨b.buf, b.off + 4 + 1⟩) :=
      get_u8_eval (by simp only []; omega)
    have f2 : (⟨b.buf, b.off + 4 + 1⟩ : Octets).get_u8 =
        .ok (L, ⟨b.buf, b.off + 4 + 1 + 1⟩) := by
      rw [get_u8_eval (by simp only []; omega)]
      simp only []
      rw [show b.off + 4 + 1 = b.off + 5 from by omega, hL]
    have f3 : (⟨b.buf, b.off + 4 + 1 + 1⟩ : Octets).get_bytes L =
        .error .BufferTooShort :=
      get_bytes_error_eval (by simp only []; omega)
    have e2 : parseItems (⟨b.buf, b.off + 4⟩ : Octets) = .error .BufferTooShort :=
      parseItems_data_err f1 ht f2 f3
    rw [RtcpSourceDescriptionChunk.from_bytes]
    simp only [e1, e2]

/-- C4 witness: a 6-byte buffer with no zero byte after the ssrc fails to
decode with the bounds error. -/
theorem chunk_from_bytes_error_handling_witness :
    RtcpSourceDescriptionChunk.from_bytes ⟨[0, 0, 0, 0, 1, 1], 0⟩ =
      .error .BufferTooShort :=
  chunk_from_bytes_error_handling.2.1 ⟨[0, 0, 0, 0, 1, 1], 0⟩ (by decide)
    (by decide)

/-- C5: packet decode decodes exactly count chunks sequentially via the
chunk decoder, in order: a successful decode of count chunks yields
exactly count chunks; a chunk-decoder failure on the first chunk
propagates unchanged (no partial packet); and a successful first chunk
followed by a successful decode of the remaining count produces the chunk
consed onto the rest, in decode order. -/
theorem packet_from_bytes_count_spec :
    (∀ (b : Octets) (n : Nat) (p : RtcpSourceDescriptionPacket) (rest : Octets),
      RtcpSourceDescriptionPacket.from_bytes b n = .ok (p, rest) →
      p.chunks.length = n) ∧
    (∀ (b : Octets) (n : Nat) (e : RtcpError),
      RtcpSourceDescriptionChunk.from_bytes b = .error e →
      RtcpSourceDescriptionPacket.from_bytes b (n + 1) = .error e) ∧
    (∀ (b b2 rest : Octets) (n : Nat) (c : RtcpSourceDescriptionChunk)
      (p : RtcpSourceDescriptionPacket),
      RtcpSourceDescriptionChunk.from_bytes b = .ok (c, b2) →
      RtcpSourceDescriptionPacket.from_bytes b2 n = .ok (p, rest) →
      RtcpSourceDescriptionPacket.from_bytes b (n + 1) =
        .ok (⟨c :: p.chunks⟩, rest)) := by
  refine ⟨?_, ?_, ?_⟩
  · intro b n p rest h
    rw [RtcpSourceDescriptionPacket.from_bytes] at h
    split at h
    · cases h
    · rename_i cs b3 heq
      simp only [Except.ok.injEq, Prod.mk.injEq] at h
      obtain ⟨rfl, rfl⟩ := h
      exact chunksFromBytes_length n b cs b3 heq
  · intro b n e h
    rw [RtcpSourceDescriptionPacket.from_bytes, chunksFromBytes]
    simp only [h]
  · intro b b2 rest n c p h1 h2
    rw [RtcpSourceDescriptionPacket.from_bytes] at h2
    rw [RtcpSourceDescriptionPacket.from_bytes, chunksFromBytes]
    split at h2
    · cases h2
    · rename_i cs b3 heq
      simp only [Except.ok.injEq, Prod.mk.injEq] at h2
      obtain ⟨rfl, rfl⟩ := h2
      simp only [h1, heq]

/-- C5 witness: decoding the 12-byte concrete buffer with count 1 yields a
one-chunk packet; the theorem then gives its chunk count as 1. -/
theorem packet_from_bytes_count_spec_witness :
    (RtcpSourceDescriptionPacket.mk [⟨0x12345678, [⟨1, [97, 98, 99]⟩]⟩]).chunks.length
      = 1 :=
  packet_from_bytes_count_spec.1 ⟨[18, 52, 86, 120, 1, 3, 97, 98, 99, 0, 0, 0], 0⟩ 1
    ⟨[⟨0x12345678, [⟨1, [97, 98, 99]⟩]⟩]⟩
    ⟨[18, 52, 86, 120, 1, 3, 97, 98, 99, 0, 0, 0], 12⟩
    (by
      simp [RtcpSourceDescriptionPacket.from_bytes, chunksFromBytes,
        RtcpSourceDescriptionChunk.from_bytes, parseItems, Octets.get_u8,
        Octets.get_u32, Octets.get_bytes, get_padding])

/-- C7: the item-reading loop terminates on every finite buffer: a
successful parse strictly advances the cursor and stays within the buffer
(and the parser is a total function of the buffer); a buffer whose byte
right after the ssrc is zero decodes to a chunk with no items, the zero
acting as terminator, when the padding skip fits; and when the padding
skip does not fit the decode fails with the bounds error rather than
looping. -/
theorem chunk_from_bytes_terminates :
    (∀ (b b2 : Octets) (its : List RtcpSourceDescriptionItem),
      parseItems b = .ok (its, b2) →
      b2.buf = b.buf ∧ b.off < b2.off ∧ b2.off ≤ b.buf.length) ∧
    (∀ (buf : List Nat) (o : Nat), o + 5 ≤ buf.length → buf.getD (o + 4) 0 = 0 →
      o + 5 + get_padding (o + 5) ≤ buf.length →
      RtcpSourceDescriptionChunk.from_bytes ⟨buf, o⟩ =
        .ok (⟨buf.getD o 0 * 16777216 + buf.getD (o + 1) 0 * 65536 +
          buf.getD (o + 2) 0 * 256 + buf.getD (o + 3) 0, []⟩,
          ⟨buf, o + 5 + get_padding (o + 5)⟩)) ∧
    (∀ (buf : List Nat) (o : Nat), o + 5 ≤ buf.length → buf.getD (o + 4) 0 = 0 →
      buf.length < o + 5 + get_padding (o + 5) →
      RtcpSourceDescriptionChunk.from_bytes ⟨buf, o⟩ = .error .BufferTooShort) := by
  refine ⟨?_, ?_, ?_⟩
  · intro b b2 its h
    exact parseItems_progress (b.buf.length - b.off) b rfl its b2 h
  · intro buf o hb hz hp
    have e1 : (⟨buf, o⟩ : Octets).get_u32 = .ok (buf.getD o 0 * 16777216 +
        buf.getD (o + 1) 0 * 65536 + buf.getD (o + 2) 0 * 256 +
        buf.getD (o + 3) 0, ⟨buf, o + 4⟩) :=
      get_u32_eval (by simp only []; omega)
    have f1 : (⟨buf, o + 4⟩ : Octets).get_u8 = .ok (0, ⟨buf, o + 4 + 1⟩) := by
      rw [get_u8_eval (by simp only []; omega)]
      simp only []
      rw [hz]
    have e2 : parseItems (⟨buf, o + 4⟩ : Octets) =
        .ok ([], ⟨buf, o + 5 + get_padding (o + 5)⟩) := by
      by_cases hp0 : get_padding (o + 5) = 0
      · rw [show o + 5 + get_padding (o + 5) = o + 4 + 1 from by omega]
        exact parseItems_term_pad0 f1 (by
          simp only []
          rw [show o + 4 + 1 = o + 5 from by omega]
          omega)
      · have f2 : (⟨buf, o + 4 + 1⟩ : Octets).get_bytes
            (get_padding (o + 4 + 1)) =
            .ok ((buf.drop (o + 4 + 1)).take (get_padding (o + 4 + 1)),
              ⟨buf, o + 4 + 1 + get_padding (o + 4 + 1)⟩) :=
          get_bytes_eval (by
            simp only []
            rw [show o + 4 + 1 = o + 5 from by omega]
            omega)
        have := parseItems_term_pad_ok f1
          (show 0 < get_padding ((⟨buf, o + 4 + 1⟩ : Octets).off) by
            simp only []
            rw [show o + 4 + 1 = o + 5 from by omega]
            omega) f2
        rw [this]
    rw [RtcpSourceDescriptionChunk.from_bytes]
    simp only [e1, e2]
  · intro buf o hb hz hp
    have hppos : get_padding (o + 5) > 0 := by omega
    have e1 : (⟨buf, o⟩ : Octets).get_u32 = .ok (buf.getD o 0 * 16777216 +
        buf.getD (o + 1) 0 * 65536 + buf.getD (o + 2) 0 * 256 +
        buf.getD (o + 3) 0, ⟨buf, o + 4⟩) :=
      get_u32_eval (by simp only []; omega)
    have f1 : (⟨buf, o + 4⟩ : Octets).get_u8 = .ok (0, ⟨buf, o + 4 + 1⟩) := by
      rw [get_u8_eval (by simp only []; omega)]
      simp only []
      rw [hz]
    have f2 : (⟨buf, o + 4 + 1⟩ : Octets).get_bytes (get_padding (o + 4 + 1)) =
        .error .BufferTooShort :=
      get_bytes_error_eval (by
        simp only []
        rw [show o + 4 + 1 = o + 5 from by omega]
        omega)
    have e2 : parseItems (⟨buf, o + 4⟩ : Octets) = .error .BufferTooShort :=
      parseItems_term_pad_err f1
        (show 0 < get_padding ((⟨buf, o + 4 + 1⟩ : Octets).off) by
          simp only []
          rw [show o + 4 + 1 = o + 5 from by omega]
          omega) f2
    rw [RtcpSourceDescriptionChunk.from_bytes]
    simp only [e1, e2]

/-- C7 witness: on an 8-byte all-zero buffer the decode returns the chunk
with ssrc 0 and no items, consuming all 8 bytes. -/
theorem chunk_from_bytes_terminates_witness :
    RtcpSourceDescriptionChunk.from_bytes ⟨List.replicate 8 0, 0⟩ =
      .ok (⟨0, []⟩, ⟨List.replicate 8 0, 8⟩) := by
  have := chunk_from_bytes_terminates.2.1 (List.replicate 8 0) 0 (by decide)
    (by decide) (by decide)
  simpa using this

/-- C10: the decoder never inspects the padding bytes it skips: if a
second buffer has the same offset and capacity and agrees with the first
on every byte strictly before the padding region (ssrc, items and
terminator), then it decodes to the same chunk with the same final
offset, whatever its padding bytes and trailing bytes hold. -/
theorem chunk_from_bytes_padding_independent
    (b1 b2 b1' : Octets) (c : RtcpSourceDescriptionChunk)
    (h : RtcpSourceDescriptionChunk.from_bytes b1 = .ok (c, b1'))
    (ho : b2.off = b1.off) (hl : b2.buf.length = b1.buf.length)
    (hag : ∀ i, i < b1.off + 4 + (itemsBytes c.items).length + 1 →
      b2.buf.getD i 0 = b1.buf.getD i 0) :
    RtcpSourceDescriptionChunk.from_bytes b2 = .ok (c, ⟨b2.buf, b1'.off⟩) := by
  rw [RtcpSourceDescriptionChunk.from_bytes] at h
  split at h
  · cases h
  · rename_i v m1 heq
    obtain ⟨e1b, e1o, e1l, e1v⟩ := Octets.get_u32_ok heq
    split at h
    · cases h
    · rename_i its m2 heq2
      simp only [Except.ok.injEq, Prod.mk.injEq] at h
      obtain ⟨rfl, rfl⟩ := h
      simp only [] at hag
      have f1 : b2.get_u32 = .ok (v, ⟨b2.buf, b2.off + 4⟩) := by
        rw [get_u32_eval (by omega)]
        rw [hag b2.off (by omega) , hag (b2.off + 1) (by omega),
          hag (b2.off + 2) (by omega), hag (b2.off + 3) (by omega), ho, ← e1v]
      have f2 : parseItems (⟨b2.buf, b2.off + 4⟩ : Octets) =
          .ok (its, ⟨b2.buf, m2.off⟩) := by
        have hm1 : m1 = ⟨b1.buf, b1.off + 4⟩ := by
          cases m1
          simp only [Octets.mk.injEq]
          exact ⟨e1b, e1o⟩
        rw [hm1] at heq2
        have := parseItems_agree (b1.buf.length - (b1.off + 4))
          ⟨b1.buf, b1.off + 4⟩ (by simp only []) its m2
          ⟨b2.buf, b2.off + 4⟩ heq2 (by simp only []; omega)
          (by simp only []; exact hl)
          (by
            intro i hi1 hi2
            simp only [] at hi1 hi2
            exact hag i (by omega))
        exact this
      rw [RtcpSourceDescriptionChunk.from_bytes]
      simp only [f1, f2]

/-- C10 witness: the concrete 12-byte buffer and the same buffer with its
two padding bytes replaced by 255 decode to the same chunk and final
offset. -/
theorem chunk_from_bytes_padding_independent_witness :
    RtcpSourceDescriptionChunk.from_bytes
      ⟨[18, 52, 86, 120, 1, 3, 97, 98, 99, 0, 255, 255], 0⟩ =
      .ok (⟨0x12345678, [⟨1, [97, 98, 99]⟩]⟩,
        ⟨[18, 52, 86, 120, 1, 3, 97, 98, 99, 0, 255, 255], 12⟩) :=
  chunk_from_bytes_padding_independent
    ⟨[18, 52, 86, 120, 1, 3, 97, 98, 99, 0, 0, 0], 0⟩
    ⟨[18, 52, 86, 120, 1, 3, 97, 98, 99, 0, 255, 255], 0⟩
    ⟨[18, 52, 86, 120, 1, 3, 97, 98, 99, 0, 0, 0], 12⟩
    ⟨0x12345678, [⟨1, [97, 98, 99]⟩]⟩
    (by
      simp [RtcpSourceDescriptionChunk.from_bytes, parseItems, Octets.get_u8,
        Octets.get_u32, Octets.get_bytes, get_padding])
    (by decide) (by decide) (by decide)

/-- C3 witness: the formula theorem applied to the empty chunk gives a
length divisible by 4. -/
theorem chunk_get_length_formula_witness :
    (⟨0, []⟩ : RtcpSourceDescriptionChunk).get_length % 4 = 0 :=
  (chunk_get_length_formula ⟨0, []⟩).2

/-- C8 witness: the chunk-count specification applied to a packet of 256
chunks: the u8 cast count is the count mod 256. -/
theorem packet_get_chunks_length_spec_witness :
    (⟨List.replicate 256 ⟨0, []⟩⟩ : RtcpSourceDescriptionPacket).get_chunks_length =
      (⟨List.replicate 256 ⟨0, []⟩⟩ : RtcpSourceDescriptionPacket).chunks.length %
        256 :=
  (packet_get_chunks_length_spec ⟨List.replicate 256 ⟨0, []⟩⟩).1
